import Mathlib

/-!
Verification of the birthday-bot roster core (`PeopleService`, `BotService`).

The embedding follows the JSON-file-backed `PeopleService` (the version of
`people.service.ts` whose `addPerson` guards the empty roster and whose date
parsing uses dayjs strict mode `dayjs(s, 'DD.MM.YYYY', true)`), and the
scheduler/notification loop of `BotService.checkBirthdays` /
`sendBirthdayCongratulations`.

Modelling conventions:
- Calendar dates are triples of naturals; months are 1-based here, while dayjs
  months are 0-based.  Every comparison in the source compares two dayjs month
  values with each other, so a consistent 1-based shift preserves all results.
- dayjs strict parsing of 'DD.MM.YYYY' accepts exactly the ten-character
  strings `dd.mm.yyyy` made of digits and dots whose day/month denote a real
  Gregorian calendar date (dayjs strict mode re-formats the parsed value and
  compares with the input, so overflowing days such as 31.02 are rejected).
- An invalid dayjs date has NaN components; `NaN === n` is false for every n,
  so the filter in `getPeopleWithBirthdayToday` treats unparseable birth dates
  as non-matches without throwing.  The embedding returns `none` from the
  parser and the predicate returns `false` in that case.
- Persistence (`saveDataToFile`) and logging are external side effects with no
  bearing on roster values; they are not modelled.
-/

/-- A calendar date at day granularity (month is 1-based). -/
structure Date where
  year : Nat
  month : Nat
  day : Nat
deriving DecidableEq

/-- The `Person` interface of `people.service.ts`: id, display name, birth
date in `DD.MM.YYYY` string form, and an optional Telegram handle. -/
structure Person where
  id : Nat
  name : String
  birthDate : String
  telegramUsername : Option String
deriving DecidableEq

/-- The `Omit<Person, 'id'>` candidate accepted by `addPerson`. -/
structure NewPerson where
  name : String
  birthDate : String
  telegramUsername : Option String
deriving DecidableEq

/-- Gregorian leap-year rule used by dayjs for February lengths. -/
def isLeapYear (y : Nat) : Bool :=
  (y % 4 = 0 && y % 100 ≠ 0) || y % 400 = 0

/-- Number of days of month `m` (1-based) of year `y`, as dayjs computes it;
0 for out-of-range months. -/
def daysInMonth (y m : Nat) : Nat :=
  if m = 2 then (if isLeapYear y then 29 else 28)
  else if m = 4 ∨ m = 6 ∨ m = 9 ∨ m = 11 then 30
  else if 1 ≤ m ∧ m ≤ 12 then 31
  else 0

/-- Strict parsing `dayjs(s, 'DD.MM.YYYY', true)`: the string must be exactly
ten characters `dd.mm.yyyy` (digits and literal dots) and must denote a real
calendar date; otherwise the dayjs value is invalid, modelled as `none`. -/
def parseDateStrict (s : String) : Option Date :=
  match s.toList with
  | [d1, d2, p1, m1, m2, p2, y1, y2, y3, y4] =>
    if p1 = '.' ∧ p2 = '.' ∧ d1.isDigit ∧ d2.isDigit ∧ m1.isDigit ∧ m2.isDigit
        ∧ y1.isDigit ∧ y2.isDigit ∧ y3.isDigit ∧ y4.isDigit then
      if 1 ≤ 10 * (m1.toNat - 48) + (m2.toNat - 48)
          ∧ 10 * (m1.toNat - 48) + (m2.toNat - 48) ≤ 12
          ∧ 1 ≤ 10 * (d1.toNat - 48) + (d2.toNat - 48)
          ∧ 10 * (d1.toNat - 48) + (d2.toNat - 48) ≤
              daysInMonth
                (1000 * (y1.toNat - 48) + 100 * (y2.toNat - 48)
                  + 10 * (y3.toNat - 48) + (y4.toNat - 48))
                (10 * (m1.toNat - 48) + (m2.toNat - 48)) then
        some ⟨1000 * (y1.toNat - 48) + 100 * (y2.toNat - 48)
                + 10 * (y3.toNat - 48) + (y4.toNat - 48),
              10 * (m1.toNat - 48) + (m2.toNat - 48),
              10 * (d1.toNat - 48) + (d2.toNat - 48)⟩
      else none
    else none
  | _ => none

/-- The filter predicate of `getPeopleWithBirthdayToday`: parse the birth date
strictly, then compare day-of-month and month (year never read).  An invalid
parse yields NaN components in dayjs, whose comparisons are false. -/
def isBirthdayOn (p : Person) (today : Date) : Bool :=
  match parseDateStrict p.birthDate with
  | some b => b.day == today.day && b.month == today.month
  | none => false

/-- `PeopleService.getPeopleWithBirthdayToday`, parametrised by the roster and
the reference date ("today"). -/
def getPeopleWithBirthdayToday (st : List Person) (today : Date) : List Person :=
  st.filter (fun p => isBirthdayOn p today)

/-- A parsed date satisfies the validity bounds checked by strict parsing. -/
lemma parseDateStrict_valid {s : String} {b : Date}
    (h : parseDateStrict s = some b) :
    1 ≤ b.month ∧ b.month ≤ 12 ∧ 1 ≤ b.day ∧ b.day ≤ daysInMonth b.year b.month := by
  unfold parseDateStrict at h
  split at h
  · split at h
    · split at h
      · rename_i hvalid
        cases b
        injection h with h2
        injection h2 with hy hm hd
        subst hy; subst hm; subst hd
        exact hvalid
      · exact absurd h (by simp)
    · exact absurd h (by simp)
  · exact absurd h (by simp)

/-- C1: a person is selected by the birthday-today check iff they are in the
roster and their birth date parses strictly to a date whose day and month both
equal the reference date's day and month (the birth year is unconstrained);
a person whose birth date fails to parse is never selected, and the check is a
total function (no exception).  The concrete spec examples for birth date
15.06.1990 against references 15.06.2024, 15.06.1990 and 16.06.2024 are also
checked. -/
theorem c1_birthday_check :
    (∀ (st : List Person) (today : Date) (p : Person),
      p ∈ getPeopleWithBirthdayToday st today ↔
        p ∈ st ∧ ∃ b, parseDateStrict p.birthDate = some b ∧
          b.day = today.day ∧ b.month = today.month) ∧
    (∀ (st : List Person) (today : Date) (p : Person),
      parseDateStrict p.birthDate = none →
        p ∉ getPeopleWithBirthdayToday st today) ∧
    (isBirthdayOn ⟨1, "Ivan", "15.06.1990", none⟩ ⟨2024, 6, 15⟩ = true ∧
     isBirthdayOn ⟨1, "Ivan", "15.06.1990", none⟩ ⟨1990, 6, 15⟩ = true ∧
     isBirthdayOn ⟨1, "Ivan", "15.06.1990", none⟩ ⟨2024, 6, 16⟩ = false) := by
  refine ⟨?_, ?_, by decide⟩
  · intro st today p
    simp only [getPeopleWithBirthdayToday, List.mem_filter]
    constructor
    · rintro ⟨hmem, hpred⟩
      refine ⟨hmem, ?_⟩
      unfold isBirthdayOn at hpred
      split at hpred
      · rename_i b hb
        simp only [Bool.and_eq_true, beq_iff_eq] at hpred
        exact ⟨b, hb, hpred.1, hpred.2⟩
      · simp at hpred
    · rintro ⟨hmem, b, hb, hd, hm⟩
      refine ⟨hmem, ?_⟩
      unfold isBirthdayOn
      rw [hb]
      simp [hd, hm]
  · intro st today p hnone hmem
    simp only [getPeopleWithBirthdayToday, List.mem_filter] at hmem
    have := hmem.2
    unfold isBirthdayOn at this
    rw [hnone] at this
    simp at this

/-- Witness for `c1_birthday_check`: a person with an unparseable birth date
is not selected even on an otherwise matching reference date. -/
theorem c1_birthday_check_witness :
    (⟨7, "Bad", "15-06-1990", none⟩ : Person) ∉
      getPeopleWithBirthdayToday [⟨7, "Bad", "15-06-1990", none⟩] ⟨2024, 6, 15⟩ :=
  c1_birthday_check.2.1 [⟨7, "Bad", "15-06-1990", none⟩] ⟨2024, 6, 15⟩
    ⟨7, "Bad", "15-06-1990", none⟩ (by decide)

/-- `Math.max(...this.people.map(p => p.id))` over a roster (ids are the
naturals assigned by `addPerson`); only read when the roster is non-empty. -/
def maxId (st : List Person) : Nat :=
  (st.map Person.id).foldl max 0

/-- `PeopleService.getPersonById`: first person with the given id. -/
def getPersonById (st : List Person) (id : Nat) : Option Person :=
  st.find? (fun p => p.id == id)

/-- `PeopleService.addPerson`: assign `max existing id + 1` (or 1 on an empty
roster), append, and return the stored person together with the new roster
(the file write of `saveDataToFile` is an external side effect). -/
def addPerson (st : List Person) (c : NewPerson) : Person × List Person :=
  let p : Person :=
    ⟨if st.length > 0 then maxId st + 1 else 1, c.name, c.birthDate, c.telegramUsername⟩
  (p, st ++ [p])

/-- `PeopleService.removePerson`: `findIndex` + `splice(index, 1)`, i.e.
remove the first person with the given id; returns whether one was removed,
together with the resulting roster. -/
def removePerson (st : List Person) (id : Nat) : Bool × List Person :=
  match st with
  | [] => (false, [])
  | p :: rest =>
    if p.id = id then (true, rest)
    else
      let r := removePerson rest id
      (r.1, p :: r.2)

lemma foldl_max_init_le (l : List Nat) (a : Nat) : a ≤ l.foldl max a := by
  induction l generalizing a with
  | nil => simp
  | cons x l ih => exact le_trans (le_max_left a x) (ih (max a x))

lemma mem_le_foldl_max (l : List Nat) (a x : Nat) (hx : x ∈ l) :
    x ≤ l.foldl max a := by
  induction l generalizing a with
  | nil => cases hx
  | cons y l ih =>
    rcases List.mem_cons.mp hx with h | h
    · subst h
      exact le_trans (le_max_right a x) (foldl_max_init_le l (max a x))
    · exact ih (max a y) h

/-- Every roster member's id is bounded by `maxId`. -/
lemma id_le_maxId {st : List Person} {p : Person} (hp : p ∈ st) :
    p.id ≤ maxId st :=
  mem_le_foldl_max (st.map Person.id) 0 p.id (List.mem_map_of_mem Person.id hp)

/-- The id assigned by `addPerson` is strictly greater than every id already
in the roster. -/
lemma addPerson_id_gt {st : List Person} {c : NewPerson} {q : Person}
    (hq : q ∈ st) : q.id < (addPerson st c).1.id := by
  have hlen : st.length > 0 := List.length_pos.mpr (List.ne_nil_of_mem hq)
  simp only [addPerson, hlen, if_pos]
  exact Nat.lt_succ_of_le (id_le_maxId hq)

/-- C3 (amended): the id assigned by `addPerson` never collides with an id
already present in the roster — it is `maxId + 1` on a non-empty roster and 1
on an empty one, hence fresh at the moment of assignment. -/
theorem c3_amended_fresh_id (st : List Person) (c : NewPerson) :
    (addPerson st c).1.id ∉ st.map Person.id ∧
    (addPerson st c).1.id = (if st.length > 0 then maxId st + 1 else 1) := by
  constructor
  · intro hmem
    rcases List.mem_map.mp hmem with ⟨q, hq, hid⟩
    exact absurd hid (Nat.ne_of_gt (addPerson_id_gt hq)).symm
  · rfl

/-- C3 (counterexample): ids of removed people are reassigned.  Starting from
the empty roster: add A (id 1), add B (id 2), remove id 2, add C — C receives
id 2, the very id that was just removed, refuting "never reused after
removal". -/
theorem c3_counterexample_id_reuse :
    (addPerson (addPerson [] ⟨"A", "01.01.2000", none⟩).2
        ⟨"B", "02.02.2000", none⟩).1.id = 2 ∧
    (removePerson (addPerson (addPerson [] ⟨"A", "01.01.2000", none⟩).2
        ⟨"B", "02.02.2000", none⟩).2 2).1 = true ∧
    (addPerson (removePerson (addPerson (addPerson [] ⟨"A", "01.01.2000", none⟩).2
        ⟨"B", "02.02.2000", none⟩).2 2).2 ⟨"C", "03.03.2000", none⟩).1.id = 2 := by
  decide

lemma find?_append_fresh {st : List Person} {p : Person}
    (h : ∀ q ∈ st, q.id ≠ p.id) :
    (st ++ [p]).find? (fun q => q.id == p.id) = some p := by
  induction st with
  | nil => simp [List.find?]
  | cons q rest ih =>
    have hq : (q.id == p.id) = false := by
      simpa using h q (List.mem_cons_self q rest)
    have h2 := ih (fun r hr => h r (List.mem_cons_of_mem q hr))
    simp [List.find?, hq, h2]

lemma find?_none_of_fresh {st : List Person} {i : Nat}
    (h : ∀ q ∈ st, q.id ≠ i) :
    st.find? (fun q => q.id == i) = none := by
  induction st with
  | nil => simp [List.find?]
  | cons q rest ih =>
    have hq : (q.id == i) = false := by
      simpa using h q (List.mem_cons_self q rest)
    have h2 := ih (fun r hr => h r (List.mem_cons_of_mem q hr))
    simp [List.find?, hq, h2]

lemma removePerson_append_fresh {st : List Person} {p : Person}
    (h : ∀ q ∈ st, q.id ≠ p.id) :
    removePerson (st ++ [p]) p.id = (true, st) := by
  induction st with
  | nil => simp [removePerson]
  | cons q rest ih =>
    have hq : q.id ≠ p.id := h q (List.mem_cons_self q rest)
    have h2 := ih (fun r hr => h r (List.mem_cons_of_mem q hr))
    simp [removePerson, hq, h2]

lemma removePerson_found_iff (st : List Person) (i : Nat) :
    (removePerson st i).1 = true ↔ ∃ q ∈ st, q.id = i := by
  induction st with
  | nil => simp [removePerson]
  | cons q rest ih =>
    simp only [removePerson]
    by_cases hq : q.id = i
    · simp [hq]
    · rw [if_neg hq]
      simp only [ih, List.mem_cons]
      constructor
      · rintro ⟨r, hr, hri⟩
        exact ⟨r, Or.inr hr, hri⟩
      · rintro ⟨r, hr | hr, hri⟩
        · subst hr; exact absurd hri hq
        · exact ⟨r, hr, hri⟩

/-- C9: add/get/remove round-trips.  Adding a candidate and reading back the
returned id yields the stored person, whose fields are exactly the
candidate's; removing the returned id succeeds and restores the previous
roster exactly, after which the id resolves to "not found"; and
`removePerson` in general returns `true` exactly when a person with the
requested id was present. -/
theorem c9_add_get_remove_roundtrip (st : List Person) (c : NewPerson) :
    getPersonById (addPerson st c).2 (addPerson st c).1.id = some (addPerson st c).1 ∧
    (addPerson st c).1.name = c.name ∧
    (addPerson st c).1.birthDate = c.birthDate ∧
    (addPerson st c).1.telegramUsername = c.telegramUsername ∧
    removePerson (addPerson st c).2 (addPerson st c).1.id = (true, st) ∧
    getPersonById (removePerson (addPerson st c).2 (addPerson st c).1.id).2
      (addPerson st c).1.id = none ∧
    (∀ i : Nat, (removePerson st i).1 = true ↔ ∃ q ∈ st, q.id = i) := by
  have hfresh : ∀ q ∈ st, q.id ≠ (addPerson st c).1.id :=
    fun q hq => Nat.ne_of_lt (addPerson_id_gt hq)
  have hsnd : (addPerson st c).2 = st ++ [(addPerson st c).1] := rfl
  refine ⟨?_, rfl, rfl, rfl, ?_, ?_, removePerson_found_iff st⟩
  · rw [hsnd]
    exact find?_append_fresh hfresh
  · rw [hsnd]
    exact removePerson_append_fresh hfresh
  · rw [hsnd, removePerson_append_fresh hfresh]
    exact find?_none_of_fresh hfresh

/-- Characters removed by JS `String.prototype.trim` (ASCII subset relevant
to Telegram handles). -/
def jsWhitespace (c : Char) : Bool :=
  c == ' ' || c == '\t' || c == '\n' || c == '\r'

/-- JS `s.replace('@', '')` with a *string* pattern removes only the first
occurrence of `'@'`. -/
def rmFirstAtList : List Char → List Char
  | [] => []
  | c :: cs => if c = '@' then cs else c :: rmFirstAtList cs

/-- JS `u.replace('@', '')`: drop the first `'@'` only. -/
def rmFirstAt (s : String) : String :=
  String.mk (rmFirstAtList s.toList)

/-- JS `String.prototype.trim`. -/
def jsTrim (s : String) : String :=
  String.mk (((s.toList.dropWhile jsWhitespace).reverse.dropWhile jsWhitespace).reverse)

/-- JS `String.prototype.toLowerCase` (ASCII case folding). -/
def lowerStr (s : String) : String :=
  String.mk (s.toList.map Char.toLower)

/-- The regex `^\d\x7b2\x7d\.\d\x7b2\x7d\.\d\x7b4\x7d$` of
`addPersonFromTelegramWithValidation`. -/
def dateRegexOk (s : String) : Bool :=
  match s.toList with
  | [d1, d2, p1, m1, m2, p2, y1, y2, y3, y4] =>
    d1.isDigit && d2.isDigit && p1 == '.' && m1.isDigit && m2.isDigit && p2 == '.'
      && y1.isDigit && y2.isDigit && y3.isDigit && y4.isDigit
  | _ => false

/-- The distinct throw sites of `addPersonFromTelegramWithValidation`, in
source order. -/
inductive AddErr where
  | dateFormat
  | dateInvalid
  | usernameMissing
  | usernameEmpty
  | duplicateUsername
deriving DecidableEq

/-- `cleanUsername = telegramUsername.replace('@', '').trim()`. -/
def cleanUsername (u : String) : String :=
  jsTrim (rmFirstAt u)

/-- The duplicate test: some stored handle, lower-cased, equals the cleaned
candidate handle lower-cased (people without a stored handle never match,
mirroring the optional-chaining `?.`). -/
def hasDuplicateUsername (st : List Person) (clean : String) : Bool :=
  st.any (fun p => p.telegramUsername.map lowerStr == some (lowerStr clean))

/-- `PeopleService.addPersonFromTelegramWithValidation`: date-format regex,
strict date validity, handle presence (JS falsiness covers both `undefined`
and the empty string), cleaning, emptiness after cleaning, case-insensitive
duplicate check, then `addPerson`.  Returns the thrown error or the stored
person, together with the resulting roster. -/
def addPersonFromTelegramWithValidation (st : List Person)
    (name birthDate : String) (telegramUsername : Option String) :
    Except AddErr Person × List Person :=
  if dateRegexOk birthDate = false then (Except.error AddErr.dateFormat, st)
  else if (parseDateStrict birthDate).isNone then (Except.error AddErr.dateInvalid, st)
  else
    match telegramUsername with
    | none => (Except.error AddErr.usernameMissing, st)
    | some u =>
      if u = "" then (Except.error AddErr.usernameMissing, st)
      else if cleanUsername u = "" then (Except.error AddErr.usernameEmpty, st)
      else if hasDuplicateUsername st (cleanUsername u) then
        (Except.error AddErr.duplicateUsername, st)
      else
        (Except.ok (addPerson st ⟨name, birthDate, some (cleanUsername u)⟩).1,
         (addPerson st ⟨name, birthDate, some (cleanUsername u)⟩).2)

/-- Every run of the validated add either fails leaving the roster exactly as
it was, or succeeds by appending exactly the stored person. -/
lemma addPersonFromTelegramWithValidation_cases (st : List Person)
    (name birthDate : String) (u : Option String) :
    (∃ e, addPersonFromTelegramWithValidation st name birthDate u = (Except.error e, st)) ∨
    (∃ p, addPersonFromTelegramWithValidation st name birthDate u = (Except.ok p, st ++ [p])) := by
  unfold addPersonFromTelegramWithValidation
  split
  · exact Or.inl ⟨_, rfl⟩
  · split
    · exact Or.inl ⟨_, rfl⟩
    · split
      · exact Or.inl ⟨_, rfl⟩
      · split
        · exact Or.inl ⟨_, rfl⟩
        · split
          · exact Or.inl ⟨_, rfl⟩
          · split
            · exact Or.inl ⟨_, rfl⟩
            · exact Or.inr ⟨_, rfl⟩

/-- C5: any candidate whose birth-date string fails the `DD.MM.YYYY` regex or
fails strict calendar validity is rejected before any mutation: the operation
returns the format error (regex miss) or the invalid-date error (regex hit but
strict parse invalid) — both validation errors — and the roster is returned
exactly unchanged, so no silent coercion of the date can occur. -/
theorem c5_invalid_date_rejected (st : List Person) (name bd : String)
    (u : Option String)
    (h : ¬(dateRegexOk bd = true ∧ (parseDateStrict bd).isSome = true)) :
    addPersonFromTelegramWithValidation st name bd u =
      (Except.error (if dateRegexOk bd then AddErr.dateInvalid else AddErr.dateFormat), st) ∧
    (if dateRegexOk bd then AddErr.dateInvalid else AddErr.dateFormat) ≠
      AddErr.duplicateUsername := by
  by_cases hr : dateRegexOk bd
  · have hp : (parseDateStrict bd).isNone = true := by
      cases hps : parseDateStrict bd with
      | none => rfl
      | some d => exact absurd ⟨hr, by simp [hps]⟩ h
    constructor
    · simp [addPersonFromTelegramWithValidation, hr, hp]
    · simp [hr]
  · have hr2 : dateRegexOk bd = false := by
      cases hxx : dateRegexOk bd
      · rfl
      · exact absurd hxx hr
    constructor
    · simp [addPersonFromTelegramWithValidation, hr2]
    · simp [hr2]

/-- Witness for `c5_invalid_date_rejected` at the spec's example input
`31.02.2000` (well-formed but not a real calendar date). -/
theorem c5_invalid_date_rejected_witness :
    addPersonFromTelegramWithValidation [] "X" "31.02.2000" none =
      (Except.error (if dateRegexOk "31.02.2000" then AddErr.dateInvalid else AddErr.dateFormat), []) ∧
    (if dateRegexOk "31.02.2000" then AddErr.dateInvalid else AddErr.dateFormat) ≠
      AddErr.duplicateUsername :=
  c5_invalid_date_rejected [] "X" "31.02.2000" none (by decide)

/-- C4 (counterexample): a candidate whose handle case-insensitively matches
an existing person's handle but whose birth date is invalid fails with the
*validation* error, not the duplicate error — the date checks run first — so
"fails with a duplicate error" does not hold for every matching candidate. -/
theorem c4_counterexample_date_checked_first :
    hasDuplicateUsername [⟨1, "Ivan", "01.01.2000", some "ivan"⟩]
      (cleanUsername "@ivan") = true ∧
    addPersonFromTelegramWithValidation [⟨1, "Ivan", "01.01.2000", some "ivan"⟩]
      "X" "31.02.2000" (some "@ivan") =
      (Except.error AddErr.dateInvalid, [⟨1, "Ivan", "01.01.2000", some "ivan"⟩]) ∧
    AddErr.dateInvalid ≠ AddErr.duplicateUsername :=
  ⟨by decide, rfl, by decide⟩

/-- C4 (amended): if the candidate's birth date passes both date checks and
its cleaned handle (first `'@'` removed, trimmed) is non-empty and
case-insensitively matches a stored handle, the add fails with the duplicate
error and the roster is exactly unchanged; moreover every failing run of the
validated add, whatever the error, leaves the roster exactly unchanged. -/
theorem c4_duplicate_handle_rejected :
    (∀ (st : List Person) (name bd : String) (s : String),
      dateRegexOk bd = true → (parseDateStrict bd).isSome = true →
      s ≠ "" → cleanUsername s ≠ "" →
      hasDuplicateUsername st (cleanUsername s) = true →
      addPersonFromTelegramWithValidation st name bd (some s) =
        (Except.error AddErr.duplicateUsername, st)) ∧
    (∀ (st : List Person) (name bd : String) (u : Option String) (e : AddErr),
      (addPersonFromTelegramWithValidation st name bd u).1 = Except.error e →
      (addPersonFromTelegramWithValidation st name bd u).2 = st) := by
  constructor
  · intro st name bd s hr hp hs hclean hdup
    have hp2 : (parseDateStrict bd).isNone = false := by
      cases hps : parseDateStrict bd
      · simp [hps] at hp
      · rfl
    simp [addPersonFromTelegramWithValidation, hr, hp2, hs, hclean, hdup]
  · intro st name bd u e h
    rcases addPersonFromTelegramWithValidation_cases st name bd u with ⟨e2, heq⟩ | ⟨p, heq⟩
    · rw [heq]
    · rw [heq] at h
      simp at h

/-- Witness for `c4_duplicate_handle_rejected`: adding `@Ivan` against a
roster already holding handle `ivan` fails with the duplicate error and
leaves the roster unchanged. -/
theorem c4_duplicate_handle_rejected_witness :
    addPersonFromTelegramWithValidation [⟨1, "Ivan", "01.01.2000", some "ivan"⟩]
      "X" "15.06.1990" (some "@Ivan") =
      (Except.error AddErr.duplicateUsername, [⟨1, "Ivan", "01.01.2000", some "ivan"⟩]) :=
  c4_duplicate_handle_rejected.1 [⟨1, "Ivan", "01.01.2000", some "ivan"⟩]
    "X" "15.06.1990" "@Ivan" (by decide) (by decide) (by decide) (by decide) (by decide)

/-- C10 (counterexample): the handle `"@@"` becomes empty after stripping all
`'@'` characters, yet the validated add *succeeds* — JS `replace('@', '')`
removes only the first `'@'`, so the cleaned handle is `"@"` and the person
is stored with it.  The claim's "operation throws" is false for this input. -/
theorem c10_counterexample_double_at :
    ("@@".toList.filter (fun c => c != '@')) = [] ∧
    addPersonFromTelegramWithValidation [] "A" "15.06.1990" (some "@@") =
      (Except.ok ⟨1, "A", "15.06.1990", some "@"⟩,
       [⟨1, "A", "15.06.1990", some "@"⟩]) :=
  ⟨by decide, rfl⟩

/-- C10 (amended): the validated add fails (with some error, leaving the
roster unchanged) whenever the handle is absent, empty, or becomes empty
after removing the *first* `'@'` and trimming; and every successfully added
person carries a non-empty stored handle. -/
theorem c10_handle_required :
    (∀ (st : List Person) (name bd : String) (u : Option String),
      (u = none ∨ u = some "" ∨ (∃ s, u = some s ∧ cleanUsername s = "")) →
      ∃ e, addPersonFromTelegramWithValidation st name bd u = (Except.error e, st)) ∧
    (∀ (st : List Person) (name bd : String) (u : Option String)
        (p : Person) (q : List Person),
      addPersonFromTelegramWithValidation st name bd u = (Except.ok p, q) →
      ∃ s, p.telegramUsername = some s ∧ s ≠ "") := by
  constructor
  · intro st name bd u hu
    by_cases h1 : dateRegexOk bd = false
    · exact ⟨AddErr.dateFormat, by simp [addPersonFromTelegramWithValidation, h1]⟩
    · have h1t : dateRegexOk bd = true := by
        cases hxx : dateRegexOk bd
        · exact absurd hxx h1
        · rfl
      by_cases h2 : (parseDateStrict bd).isNone = true
      · refine ⟨AddErr.dateInvalid, ?_⟩
        simp [addPersonFromTelegramWithValidation, h1t, h2]
      · have h2f : (parseDateStrict bd).isNone = false := by
          cases hxx : (parseDateStrict bd).isNone
          · rfl
          · exact absurd hxx h2
        rcases hu with rfl | rfl | ⟨s, rfl, hs⟩
        · exact ⟨AddErr.usernameMissing,
            by simp [addPersonFromTelegramWithValidation, h1t, h2f]⟩
        · exact ⟨AddErr.usernameMissing,
            by simp [addPersonFromTelegramWithValidation, h1t, h2f]⟩
        · by_cases hse : s = ""
          · exact ⟨AddErr.usernameMissing,
              by simp [addPersonFromTelegramWithValidation, h1t, h2f, hse]⟩
          · exact ⟨AddErr.usernameEmpty,
              by simp [addPersonFromTelegramWithValidation, h1t, h2f, hse, hs]⟩
  · intro st name bd u p q h
    unfold addPersonFromTelegramWithValidation at h
    split at h
    · simp at h
    · split at h
      · simp at h
      · split at h
        · simp at h
        · rename_i u0
          split at h
          · simp at h
          · split at h
            · simp at h
            · split at h
              · simp at h
              · rename_i hclean hdup
                have hp' : p = (addPerson st ⟨name, bd, some (cleanUsername u0)⟩).1 := by
                  have := congrArg Prod.fst h
                  simp at this
                  exact this.symm
                refine ⟨cleanUsername u0, ?_, hclean⟩
                rw [hp']
                rfl

/-- Witness for `c10_handle_required`: an absent handle makes the validated
add fail with the roster unchanged. -/
theorem c10_handle_required_witness :
    ∃ e, addPersonFromTelegramWithValidation [] "A" "15.06.1990" none =
      (Except.error e, []) :=
  c10_handle_required.1 [] "A" "15.06.1990" none (Or.inl rfl)

lemma daysInMonth_not_feb {m : Nat} (h : m ≠ 2) (y y2 : Nat) :
    daysInMonth y m = daysInMonth y2 m := by
  simp [daysInMonth, h]

lemma daysInMonth_ge_28 (y : Nat) {m : Nat} (h1 : 1 ≤ m) (h2 : m ≤ 12) :
    28 ≤ daysInMonth y m := by
  interval_cases m <;> simp [daysInMonth] <;> split_ifs <;> norm_num

lemma daysInMonth_feb_le_29 (y : Nat) : daysInMonth y 2 ≤ 29 := by
  simp only [daysInMonth]
  split_ifs <;> norm_num

/-- `today.diff(birthDate, 'year')` of dayjs, at day granularity, for a valid
birth date `b` and reference date `today` not before `b`.  dayjs computes
`absFloor(monthDiff(today, birth) / 12)` where `monthDiff` counts whole
months by adding months to the earlier date with end-of-month clamping and
truncates the fractional remainder.  At day granularity that yields
`W = 12 * (ry - by) + (rm - bm)` whole months when the reference day has
reached the birth day **or** the end of the reference month (the clamped
anchor), and `W - 1` otherwise; the year difference is the floor of that
month count divided by 12. -/
def dayjsDiffYears (b today : Date) : Nat :=
  (if b.day ≤ today.day ∨ daysInMonth today.year today.month ≤ today.day then
      12 * ((today.year : Int) - (b.year : Int)) + ((today.month : Int) - (b.month : Int))
    else
      12 * ((today.year : Int) - (b.year : Int)) + ((today.month : Int) - (b.month : Int)) - 1).toNat / 12

/-- `PeopleService.getPersonAge`: strict-parse the birth date and take the
dayjs year difference to "today"; an invalid birth date gives a NaN age in
the source, modelled as `none`. -/
def getPersonAge (p : Person) (today : Date) : Option Nat :=
  (parseDateStrict p.birthDate).map (fun b => dayjsDiffYears b today)

lemma dayjsDiffYears_formula (b today : Date)
    (hbm1 : 1 ≤ b.month) (hbm2 : b.month ≤ 12)
    (hbd1 : 1 ≤ b.day) (hbd2 : b.day ≤ daysInMonth b.year b.month)
    (hfeb : ¬(b.month = 2 ∧ b.day = 29))
    (hm1 : 1 ≤ today.month) (hm2 : today.month ≤ 12)
    (hle : b.year < today.year ∨ (b.year = today.year ∧
      (b.month < today.month ∨ (b.month = today.month ∧ b.day ≤ today.day)))) :
    dayjsDiffYears b today =
      if today.month < b.month ∨ (today.month = b.month ∧ today.day < b.day)
      then today.year - b.year - 1 else today.year - b.year := by
  have hkey : today.month = b.month → b.day ≤ daysInMonth today.year today.month := by
    intro hmb
    by_cases hb2 : b.month = 2
    · have h1 : daysInMonth b.year b.month ≤ 29 := by
        rw [hb2]; exact daysInMonth_feb_le_29 b.year
      have h2 : 28 ≤ daysInMonth today.year today.month :=
        daysInMonth_ge_28 today.year hm1 hm2
      have h3 : b.day ≠ 29 := fun hx => hfeb ⟨hb2, hx⟩
      omega
    · rw [hmb]
      have h1 : daysInMonth today.year b.month = daysInMonth b.year b.month :=
        daysInMonth_not_feb hb2 today.year b.year
      omega
  unfold dayjsDiffYears
  split <;> split <;> omega

/-- C2 (amended): for a valid birth date other than February 29 and a real
reference date not before it, `getPersonAge` is the whole number of completed
years: the year difference, minus one exactly when the reference (month, day)
still precedes the birth (month, day).  Hence it is 0 when the reference
equals the birth date and increments exactly on each anniversary day, never
before; the spec's example person born 15.06.1990 is 33 on 14.06.2024 and 34
on 15.06.2024 (not 34 and 35). -/
theorem c2_age_floor_of_elapsed_years (p : Person) (b today : Date)
    (hparse : parseDateStrict p.birthDate = some b)
    (hfeb : ¬(b.month = 2 ∧ b.day = 29))
    (hm1 : 1 ≤ today.month) (hm2 : today.month ≤ 12)
    (hle : b.year < today.year ∨ (b.year = today.year ∧
      (b.month < today.month ∨ (b.month = today.month ∧ b.day ≤ today.day)))) :
    getPersonAge p today =
      some (if today.month < b.month ∨ (today.month = b.month ∧ today.day < b.day)
            then today.year - b.year - 1 else today.year - b.year) := by
  obtain ⟨hbm1, hbm2, hbd1, hbd2⟩ := parseDateStrict_valid hparse
  have hform := dayjsDiffYears_formula b today hbm1 hbm2 hbd1 hbd2 hfeb hm1 hm2 hle
  simp [getPersonAge, hparse, hform]

/-- Witness for `c2_age_floor_of_elapsed_years` at birth 15.06.1990 and
reference 01.07.2024. -/
theorem c2_age_floor_of_elapsed_years_witness :
    getPersonAge ⟨1, "Ivan", "15.06.1990", none⟩ ⟨2024, 7, 1⟩ =
      some (if 7 < 6 ∨ (7 = 6 ∧ 1 < 15) then 2024 - 1990 - 1 else 2024 - 1990) :=
  c2_age_floor_of_elapsed_years ⟨1, "Ivan", "15.06.1990", none⟩ ⟨1990, 6, 15⟩
    ⟨2024, 7, 1⟩ (by decide) (by decide) (by decide) (by decide) (by decide)

/-- C2 (counterexample): the claim's example asserts age 34 on 14.06.2024 and
35 on 15.06.2024 for a birth date 15.06.1990; the code computes 33 and 34 —
the example is off by one against both the code and the claim's own "floor of
elapsed years" wording. -/
theorem c2_counterexample_example_ages :
    getPersonAge ⟨1, "Ivan", "15.06.1990", none⟩ ⟨2024, 6, 14⟩ = some 33 ∧
    getPersonAge ⟨1, "Ivan", "15.06.1990", none⟩ ⟨2024, 6, 15⟩ = some 34 ∧
    getPersonAge ⟨1, "Ivan", "15.06.1990", none⟩ ⟨2024, 6, 14⟩ ≠ some 34 ∧
    getPersonAge ⟨1, "Ivan", "15.06.1990", none⟩ ⟨2024, 6, 15⟩ ≠ some 35 := by
  decide

/-- The per-person month test of `getBirthdayStats`:
`dayjs(p.birthDate, 'DD.MM.YYYY', true).month() === m` with the NaN
comparison of an invalid parse being false (months 1-based here). -/
def birthMonthIs (p : Person) (m : Nat) : Bool :=
  match parseDateStrict p.birthDate with
  | some b => b.month == m
  | none => false

/-- `dayjs().add(1, 'month').month()` relative to the reference date: adding
one month advances the 0-based month index by one modulo 12 (the day is
clamped but the month index is unaffected); in 1-based form that is
`m % 12 + 1`, so December wraps to January. -/
def nextMonthOf (today : Date) : Nat :=
  today.month % 12 + 1

/-- Rendering of `(total / 12).toFixed(1)`: the tenths value printed with one
decimal digit. -/
def tenthsRender (n : Nat) : String :=
  toString (n / 10) ++ "." ++ toString (n % 10)

/-- The record returned by `PeopleService.getBirthdayStats`.
`averagePerMonthTenths` is the numeric content of the JS string
`(total / 12).toFixed(1)`: the nearest multiple of one tenth, ties to the
larger value, i.e. `floor(10 * total / 12 + 1 / 2) = (20 * total + 12) / 24`;
for every roster size whose `total / 12` the binary double represents within
the rounding gap (all realistic sizes) this equals what `toFixed` prints. -/
structure BirthdayStats where
  total : Nat
  thisMonth : Nat
  nextMonth : Nat
  monthlyStats : List (Nat × Nat)
  averagePerMonthTenths : Nat
  averagePerMonth : String
deriving DecidableEq

/-- `PeopleService.getBirthdayStats`, parametrised by roster and reference
date. -/
def getBirthdayStats (st : List Person) (today : Date) : BirthdayStats :=
  { total := st.length
  , thisMonth := (st.filter (fun p => birthMonthIs p today.month)).length
  , nextMonth := (st.filter (fun p => birthMonthIs p (nextMonthOf today))).length
  , monthlyStats := (List.range 12).map
      (fun i => (i + 1, (st.filter (fun p => birthMonthIs p (i + 1))).length))
  , averagePerMonthTenths := (20 * st.length + 12) / 24
  , averagePerMonth := tenthsRender ((20 * st.length + 12) / 24) }

/-- Each person with a parseable birth date is counted in exactly one of the
twelve month buckets, so the bucket counts sum to the number of people whose
birth date parses. -/
lemma monthly_sum_countP (st : List Person) :
    (([1, 2, 3, 4, 5, 6, 7, 8, 9, 10, 11, 12].map
        (fun m => st.countP (fun p => birthMonthIs p m))).sum)
      = st.countP (fun p => (parseDateStrict p.birthDate).isSome) := by
  induction st with
  | nil => simp
  | cons p rest ih =>
    simp only [List.map_cons, List.map_nil, List.sum_cons, List.sum_nil,
      List.countP_cons] at ih ⊢
    rcases hp : parseDateStrict p.birthDate with _ | ⟨byr, bm, bd⟩
    · have em : ∀ m, birthMonthIs p m = false := by
        intro m; simp [birthMonthIs, hp]
      simp [em, hp]
      omega
    · have h1 : 1 ≤ bm := (parseDateStrict_valid hp).1
      have h2 : bm ≤ 12 := (parseDateStrict_valid hp).2.1
      have em : ∀ m, birthMonthIs p m = (bm == m) := by
        intro m; simp [birthMonthIs, hp]
      simp [em, hp]
      interval_cases bm <;> simp <;> omega

/-- C6: `getBirthdayStats` reports the roster size as `total`; `thisMonth`
and `nextMonth` count the people whose parsed birth month equals the
reference month, respectively the month after it with December wrapping to
January (`m % 12 + 1` in 1-based form); the breakdown lists months 1..12
with those same counts, and the bucket counts sum to the number of people
whose birth date parses (equal to `total` whenever every birth date is
valid); `averagePerMonth` is `total / 12` rounded to one decimal.  The spec's
example — three people born in June, reference June — yields
`thisMonth = 3`, `nextMonth = 0`, `total = 3`, `averagePerMonth = "0.3"`. -/
theorem c6_birthday_stats :
    (∀ (st : List Person) (today : Date),
      (getBirthdayStats st today).total = st.length ∧
      (getBirthdayStats st today).thisMonth =
        (st.filter (fun p => birthMonthIs p today.month)).length ∧
      (getBirthdayStats st today).nextMonth =
        (st.filter (fun p => birthMonthIs p (today.month % 12 + 1))).length ∧
      (getBirthdayStats st today).monthlyStats =
        (List.range 12).map
          (fun i => (i + 1, (st.filter (fun p => birthMonthIs p (i + 1))).length)) ∧
      ((getBirthdayStats st today).monthlyStats.map Prod.snd).sum =
        (st.filter (fun p => (parseDateStrict p.birthDate).isSome)).length ∧
      (getBirthdayStats st today).averagePerMonthTenths = (20 * st.length + 12) / 24 ∧
      (getBirthdayStats st today).averagePerMonth =
        tenthsRender ((20 * st.length + 12) / 24)) ∧
    (∀ (y d : Nat), nextMonthOf ⟨y, 12, d⟩ = 1) ∧
    (∀ (y m d : Nat), m ≤ 11 → nextMonthOf ⟨y, m, d⟩ = m + 1) ∧
    ((getBirthdayStats
        [⟨1, "A", "10.06.2000", none⟩, ⟨2, "B", "15.06.1995", none⟩,
         ⟨3, "C", "20.06.1990", none⟩] ⟨2024, 6, 10⟩).total = 3 ∧
     (getBirthdayStats
        [⟨1, "A", "10.06.2000", none⟩, ⟨2, "B", "15.06.1995", none⟩,
         ⟨3, "C", "20.06.1990", none⟩] ⟨2024, 6, 10⟩).thisMonth = 3 ∧
     (getBirthdayStats
        [⟨1, "A", "10.06.2000", none⟩, ⟨2, "B", "15.06.1995", none⟩,
         ⟨3, "C", "20.06.1990", none⟩] ⟨2024, 6, 10⟩).nextMonth = 0 ∧
     (getBirthdayStats
        [⟨1, "A", "10.06.2000", none⟩, ⟨2, "B", "15.06.1995", none⟩,
         ⟨3, "C", "20.06.1990", none⟩] ⟨2024, 6, 10⟩).averagePerMonth = "0.3") := by
  refine ⟨?_, fun y d => by simp [nextMonthOf], fun y m d hm => ?_, by decide⟩
  · intro st today
    refine ⟨rfl, rfl, rfl, rfl, ?_, rfl, rfl⟩
    have hmaps : ((getBirthdayStats st today).monthlyStats.map Prod.snd) =
        (List.range 12).map
          (fun i => (st.filter (fun p => birthMonthIs p (i + 1))).length) := by
      simp [getBirthdayStats, List.map_map, Function.comp]
    rw [hmaps]
    simp only [← List.countP_eq_length_filter]
    exact monthly_sum_countP st
  · simp only [nextMonthOf]
    omega

/-- Witness for `c6_birthday_stats`: the month after June is July. -/
theorem c6_birthday_stats_witness : nextMonthOf ⟨2024, 6, 10⟩ = 6 + 1 :=
  c6_birthday_stats.2.2.1 2024 6 10 (by norm_num)

/-- Outcome of the external Telegram transport for each person id: whether
`bot.sendPhoto` resolves and whether `bot.sendMessage` resolves. -/
structure SendEnv where
  photoOk : Nat → Bool
  textOk : Nat → Bool

/-- Observable calls made to the transport during a run. -/
inductive SendEvent where
  | photoAttempt (personId : Nat)
  | textAttempt (personId : Nat)
deriving DecidableEq

/-- `bot.sendPhoto(...)`: one observable attempt; resolves or rejects
according to the environment. -/
def sendPhoto (env : SendEnv) (p : Person) : List SendEvent × Except Unit Unit :=
  ([SendEvent.photoAttempt p.id],
   if env.photoOk p.id then Except.ok () else Except.error ())

/-- `bot.sendMessage(...)`: one observable attempt; resolves or rejects
according to the environment. -/
def sendMessage (env : SendEnv) (p : Person) : List SendEvent × Except Unit Unit :=
  ([SendEvent.textAttempt p.id],
   if env.textOk p.id then Except.ok () else Except.error ())

/-- `BotService.sendBirthdayCongratulations`: try the image send; on
rejection fall back to the text send inside a nested try/catch whose inner
catch only logs — so the function itself never rejects. -/
def sendBirthdayCongratulations (env : SendEnv) (p : Person) :
    List SendEvent × Except Unit Unit :=
  match sendPhoto env p with
  | (t, Except.ok _) => (t, Except.ok ())
  | (t, Except.error _) =>
    match sendMessage env p with
    | (t2, Except.ok _) => (t ++ t2, Except.ok ())
    | (t2, Except.error _) => (t ++ t2, Except.ok ())

/-- The `for ... of` loop of `checkBirthdays`, awaiting each congratulation
before the next; an uncaught rejection would abort the remainder of the loop
and propagate. -/
def congratsLoop (env : SendEnv) : List Person → List SendEvent × Except Unit Unit
  | [] => ([], Except.ok ())
  | p :: rest =>
    match sendBirthdayCongratulations env p with
    | (t, Except.ok _) =>
      let r := congratsLoop env rest
      (t ++ r.1, r.2)
    | (t, Except.error e) => (t, Except.error e)

/-- `BotService.checkBirthdays`: query today's matches; if none, log and
return; otherwise congratulate each match in roster order. -/
def checkBirthdays (env : SendEnv) (st : List Person) (today : Date) :
    List SendEvent × Except Unit Unit :=
  if (getPeopleWithBirthdayToday st today).isEmpty then ([], Except.ok ())
  else congratsLoop env (getPeopleWithBirthdayToday st today)

/-- Per-person observable behaviour: always exactly one photo attempt first,
then a text attempt exactly when the photo send failed. -/
lemma sendBirthdayCongratulations_trace (env : SendEnv) (p : Person) :
    sendBirthdayCongratulations env p =
      (SendEvent.photoAttempt p.id ::
        (if env.photoOk p.id then [] else [SendEvent.textAttempt p.id]),
       Except.ok ()) := by
  by_cases h : env.photoOk p.id
  · simp [sendBirthdayCongratulations, sendPhoto, h]
  · by_cases h2 : env.textOk p.id <;>
      simp [sendBirthdayCongratulations, sendPhoto, sendMessage, h, h2]

lemma congratsLoop_trace (env : SendEnv) (l : List Person) :
    congratsLoop env l =
      (l.flatMap (fun p => SendEvent.photoAttempt p.id ::
          (if env.photoOk p.id then [] else [SendEvent.textAttempt p.id])),
       Except.ok ()) := by
  induction l with
  | nil => simp [congratsLoop]
  | cons p rest ih =>
    simp [congratsLoop, sendBirthdayCongratulations_trace, ih]

/-- C8: on every fire, the run completes normally — no rejection reaches the
scheduler — and the observable transport trace is exactly, in roster order,
one photo attempt per matching person followed by a text attempt precisely
for those whose photo send failed (the image-to-text fallback); thus a
failing send for one person never suppresses the attempts for later people,
and with no matches nothing is sent. -/
theorem c8_notification_loop (env : SendEnv) (st : List Person) (today : Date) :
    (checkBirthdays env st today).2 = Except.ok () ∧
    (checkBirthdays env st today).1 =
      (getPeopleWithBirthdayToday st today).flatMap
        (fun p => SendEvent.photoAttempt p.id ::
          (if env.photoOk p.id then [] else [SendEvent.textAttempt p.id])) := by
  unfold checkBirthdays
  by_cases h : (getPeopleWithBirthdayToday st today).isEmpty
  · rw [if_pos h]
    have : getPeopleWithBirthdayToday st today = [] := List.isEmpty_iff.mp h
    simp [this]
  · rw [if_neg h, congratsLoop_trace]
    exact ⟨rfl, rfl⟩
